import Mathlib

/-!
Verification of the `nice` lisp-like call-expression format.

Shallow embedding of `nice.go`: byte sequences are `List Nat` (each
element a byte value), Go's distinction between a nil `[]byte` and an
empty one is `Option (List Nat)` (`none` = nil, `some []` = empty).

In Go a `Handler` receives the resolver as an explicit first argument;
since `Eval` and `EvalArgs` always pass the very same resolver they were
given straight through, handlers are modelled here as already closed
over that resolver, which keeps the `Value` type strictly positive.
-/

namespace Nice

/-- Error models Go's `type Error string` from nice.go. -/
structure Error where
  mk ::
  msg : String
deriving DecidableEq, Repr

/-- Value models the `interface{}` results produced by evaluation: a
`Raw` byte sequence, a handler (a Go `Handler` closed over the
resolver), or some other consumer-defined value (opaque to the core). -/
inductive Value where
  | raw : List Nat → Value
  | handlerV : (Option (List Nat) → Except Error Value) → Value
  | other : Nat → Value

/-- Handler models Go's `type Handler func(r Resolver, args []byte)
(interface{}, error)`, with the resolver argument already fixed (see the
module comment). `none` args is Go's nil slice, `some []` the empty one. -/
abbrev Handler : Type := Option (List Nat) → Except Error Value

/-- Resolver models Go's `type Resolver func(name []byte) Handler`. -/
abbrev Resolver : Type := List Nat → Handler

/-- Raw models Go's `type Raw []byte` result wrapper. -/
def Raw : List Nat → Value := Value.raw

/-- Byte value of the open bracket. -/
def openB : Nat := 40

/-- Byte value of the close bracket. -/
def closeB : Nat := 41

/-- Byte value of the backslash escape character. -/
def bslash : Nat := 92

/-- Byte value of the pipe separator. -/
def pipeB : Nat := 124

/-- ErrorHandler models Go's `ErrorHandler`: a handler that ignores its
arguments and always returns the given error. -/
def ErrorHandler (err : Error) : Handler := fun _ => Except.error err

/-- End of the scan loop of Go's `Eval`: a nesting other than 1 is a
mismatched open bracket, otherwise the whole interior is the name and
the resolved handler is invoked with nil (absent) args. -/
def evalScanEnd (r : Resolver) (acc : List Nat) (nesting : Int) : Except Error Value :=
  if nesting ≠ 1 then Except.error (Error.mk "nice: mismatched (")
  else r acc none

/-- Scan loop of Go's `Eval` (the `for kk := 1; kk < len(s)-1; kk++`
loop), translated structurally: `acc` is the interior consumed so far
(Go's `s[1:kk]`), `rem` the interior not yet scanned, `nesting` the
counter. An escape byte consumes the following byte unconditionally
(when the escape is the last interior byte, the skip steps past the
loop bound and the loop exits); a pipe at nesting 1 invokes the
resolved handler with the remaining bytes; brackets adjust nesting,
erroring when it reaches 0. -/
def evalScan (r : Resolver) (acc rem : List Nat) (nesting : Int) : Except Error Value :=
  match rem with
  | [] => evalScanEnd r acc nesting
  | c :: rest =>
    if c = bslash then
      match rest with
      | [] => evalScanEnd r (acc ++ [c]) nesting
      | c2 :: rest2 => evalScan r (acc ++ [c, c2]) rest2 nesting
    else if c = pipeB ∧ nesting = 1 then r acc (some rest)
    else if c = openB then evalScan r (acc ++ [c]) rest (nesting + 1)
    else if c = closeB then
      if nesting - 1 = 0 then Except.error (Error.mk "nice: mismatched )")
      else evalScan r (acc ++ [c]) rest (nesting - 1)
    else evalScan r (acc ++ [c]) rest nesting

/-- Eval models Go's `Eval`: an input that is empty or does not start
with the open bracket is returned as `Raw`; otherwise the last byte must
be the close bracket, and the interior is scanned by `evalScan`. -/
def Eval (r : Resolver) (s : List Nat) : Except Error Value :=
  if s.length = 0 ∨ s.head? ≠ some openB then Except.ok (Raw s)
  else if s.getLast? ≠ some closeB then Except.error (Error.mk "nice: missing )")
  else evalScan r [] ((s.drop 1).dropLast) 1

/-- Recurse models Go's `Resolver.Recurse`: a nonempty name not starting
with the open bracket is delegated to the wrapped resolver; otherwise
the name is evaluated as an expression, yielding the resulting handler,
or an error handler carrying the evaluation error or `NotAFunction`. -/
def Resolver.Recurse (r : Resolver) (name : List Nat) : Handler :=
  if name.length > 0 ∧ name.head? ≠ some openB then r name
  else
    match Eval r name with
    | Except.error err => ErrorHandler err
    | Except.ok (Value.handlerV h) => h
    | Except.ok _ => ErrorHandler (Error.mk "nice: not a function")

/-- End of the scan loop of Go's `EvalArgs`: a nonzero nesting is a
mismatched open bracket, otherwise the final segment is evaluated and
its value appended. -/
def evalArgsScanEnd (r : Resolver) (acc : List Nat) (nesting : Int) (result : List Value) :
    Except Error (List Value) :=
  if nesting ≠ 0 then Except.error (Error.mk "nice: mismatched (")
  else
    match Eval r acc with
    | Except.error e => Except.error e
    | Except.ok v => Except.ok (result ++ [v])

/-- Scan loop of Go's `EvalArgs`, translated structurally: `acc` is the
current segment (Go's `s[offset:kk]`), `rem` the bytes not yet scanned,
`result` the values produced so far. An escape byte consumes the
following byte unconditionally (a trailing escape steps past the loop
bound and the loop exits); at every unescaped pipe at nesting 0 the
current segment is evaluated and appended; brackets adjust nesting,
erroring when it drops below 0. -/
def evalArgsScan (r : Resolver) (acc rem : List Nat) (nesting : Int) (result : List Value) :
    Except Error (List Value) :=
  match rem with
  | [] => evalArgsScanEnd r acc nesting result
  | c :: rest =>
    if c = bslash then
      match rest with
      | [] => evalArgsScanEnd r (acc ++ [c]) nesting result
      | c2 :: rest2 => evalArgsScan r (acc ++ [c, c2]) rest2 nesting result
    else if c = pipeB ∧ nesting = 0 then
      match Eval r acc with
      | Except.error e => Except.error e
      | Except.ok v => evalArgsScan r [] rest nesting (result ++ [v])
    else if c = openB then evalArgsScan r (acc ++ [c]) rest (nesting + 1) result
    else if c = closeB then
      if nesting - 1 < 0 then Except.error (Error.mk "nice: mismatched )")
      else evalArgsScan r (acc ++ [c]) rest (nesting - 1) result
    else evalArgsScan r (acc ++ [c]) rest nesting result

/-- EvalArgs models Go's `EvalArgs`: a nil args slice yields a nil value
list with no error; otherwise the bytes are split at top-level pipes and
each segment evaluated in order. -/
def EvalArgs (r : Resolver) (s : Option (List Nat)) : Except Error (List Value) :=
  match s with
  | none => Except.ok []
  | some bs => evalArgsScan r [] bs 0 []

/-- Escape models Go's `Escape`: an escape byte is inserted before every
occurrence of the four special bytes; all other bytes pass through. (The
Go code additionally returns the input buffer itself when no special
byte occurs, an allocation optimization that does not change the byte
content.) -/
def Escape : List Nat → List Nat
  | [] => []
  | c :: rest =>
    if c = bslash ∨ c = openB ∨ c = closeB ∨ c = pipeB then bslash :: c :: Escape rest
    else c :: Escape rest

/-- Closed form of Go's `Unescape` once its result buffer has been
allocated: every unescaped escape byte is dropped and the byte
following it kept literally, a trailing dangling escape included. Used
in proofs about `Unescape`, which reproduces the Go loop itself. -/
def unescapeAll : List Nat → List Nat
  | [] => []
  | c :: rest =>
    if c = bslash then
      match rest with
      | [] => []
      | c2 :: rest2 => c2 :: unescapeAll rest2
    else c :: unescapeAll rest

/-- Condition under which Go's `Unescape` allocates its result buffer:
some unescaped escape byte is followed by another byte; equivalently,
the first escape byte of the sequence, if any, is not its last byte.
While no such pair has been seen the Go loop writes nothing and finally
returns the input unchanged. -/
def hasEscapePair : List Nat → Bool
  | [] => false
  | c :: rest =>
    if c = bslash then
      match rest with
      | [] => false
      | _ :: _ => true
    else hasEscapePair rest

/-- Loop of Go's `Unescape`, translated case by case: `kk` is the index
of the current byte `c` (head of `rem`) within the full input `s`,
`result` is `none` while Go's result slice is still nil and otherwise
holds the bytes written so far (Go's `result[:offset]`), `slash` is the
flag meaning the previous byte was an unescaped escape byte. An
unescaped escape byte writes nothing and sets the flag; the first byte
seen with the flag set and a nil result allocates the result as a copy
of `s[:kk-1]` and (by fallthrough) appends the byte; with an allocated
result the byte is appended; otherwise nothing happens. In every
non-first case the flag resets (`slash = !slash && c == escape`). -/
def unescapeLoop (s : List Nat) (kk : Nat) (rem : List Nat) (result : Option (List Nat))
    (slash : Bool) : Option (List Nat) :=
  match rem with
  | [] => result
  | c :: rest =>
    if ¬slash ∧ c = bslash then unescapeLoop s (kk + 1) rest result true
    else if slash ∧ result = none then
      unescapeLoop s (kk + 1) rest (some (s.take (kk - 1) ++ [c])) false
    else
      match result with
      | some l => unescapeLoop s (kk + 1) rest (some (l ++ [c])) false
      | none => unescapeLoop s (kk + 1) rest none false

/-- Unescape models Go's `Unescape`: the loop runs over the whole input
with a nil result and a clear flag; if the result slice was never
allocated the input is returned unchanged (so a dangling trailing
escape with no earlier escape pair is kept), otherwise the written
bytes are returned. -/
def Unescape (s : List Nat) : List Nat :=
  match unescapeLoop s 0 s none false with
  | none => s
  | some l => l

/-- ScanResult classifies how the interior scan of `Eval` terminates:
it finds a top-level pipe splitting name from raw args, or an unescaped
close bracket drives nesting to 0, or the scan ends with a final
nesting value and the whole interior as the name. -/
inductive ScanResult where
  | pipeAt : List Nat → List Nat → ScanResult
  | closedEarly : ScanResult
  | done : Int → List Nat → ScanResult
deriving DecidableEq, Repr

/-- Resolver-free version of `evalScan`: the same scan, recording only
how it terminates. -/
def scanInterior (acc rem : List Nat) (nesting : Int) : ScanResult :=
  match rem with
  | [] => ScanResult.done nesting acc
  | c :: rest =>
    if c = bslash then
      match rest with
      | [] => ScanResult.done nesting (acc ++ [c])
      | c2 :: rest2 => scanInterior (acc ++ [c, c2]) rest2 nesting
    else if c = pipeB ∧ nesting = 1 then ScanResult.pipeAt acc rest
    else if c = openB then scanInterior (acc ++ [c]) rest (nesting + 1)
    else if c = closeB then
      if nesting - 1 = 0 then ScanResult.closedEarly
      else scanInterior (acc ++ [c]) rest (nesting - 1)
    else scanInterior (acc ++ [c]) rest nesting

/-- Action `Eval` takes on each scan outcome: a found pipe invokes the
resolved handler with the raw args, an early close is a mismatched
close bracket, and a completed scan is a mismatched open bracket unless
nesting is 1, in which case the handler gets nil args. -/
def scanDenote (r : Resolver) : ScanResult → Except Error Value
  | ScanResult.pipeAt nm ar => r nm (some ar)
  | ScanResult.closedEarly => Except.error (Error.mk "nice: mismatched )")
  | ScanResult.done k nm =>
    if k ≠ 1 then Except.error (Error.mk "nice: mismatched (")
    else r nm none

/-- Segments of an args byte range delimited by unescaped pipes at
nesting 0, under the same scanning rules as `evalArgsScan` (`acc` is
the current partial segment). -/
def topSegs (acc rem : List Nat) (nesting : Int) : List (List Nat) :=
  match rem with
  | [] => [acc]
  | c :: rest =>
    if c = bslash then
      match rest with
      | [] => [acc ++ [c]]
      | c2 :: rest2 => topSegs (acc ++ [c, c2]) rest2 nesting
    else if c = pipeB ∧ nesting = 0 then acc :: topSegs [] rest nesting
    else if c = openB then topSegs (acc ++ [c]) rest (nesting + 1)
    else if c = closeB then topSegs (acc ++ [c]) rest (nesting - 1)
    else topSegs (acc ++ [c]) rest nesting

/-- Number of top-level pipes of an args byte range: unescaped pipes
encountered at nesting 0, under the same scanning rules (the byte after
an escape byte is skipped, unescaped brackets adjust nesting). -/
def countTopPipes (rem : List Nat) (nesting : Int) : Nat :=
  match rem with
  | [] => 0
  | c :: rest =>
    if c = bslash then
      match rest with
      | [] => 0
      | _ :: rest2 => countTopPipes rest2 nesting
    else if c = pipeB ∧ nesting = 0 then countTopPipes rest nesting + 1
    else if c = openB then countTopPipes rest (nesting + 1)
    else if c = closeB then countTopPipes rest (nesting - 1)
    else countTopPipes rest nesting

/-- Constant resolver used to instantiate universally quantified
statements at a concrete input. -/
def rConst : Resolver := fun _ => fun _ => Except.ok (Value.raw [])

/-- Resolver mapping every name to a handler returning the name itself,
used to distinguish delegation from error-handler fallbacks. -/
def rId : Resolver := fun name => fun _ => Except.ok (Value.raw name)

/-- Unescaping (allocated regime) a sequence starting with an escape
byte drops the escape byte and keeps the following byte. -/
theorem unescapeAll_cons_escape (c2 : Nat) (x : List Nat) :
    unescapeAll (bslash :: c2 :: x) = c2 :: unescapeAll x := rfl

/-- Unescaping (allocated regime) a sequence starting with a non-escape
byte keeps it. -/
theorem unescapeAll_cons_other (c : Nat) (hc : c ≠ bslash) (x : List Nat) :
    unescapeAll (c :: x) = c :: unescapeAll x := by
  rw [unescapeAll.eq_def]
  simp [hc]

/-- Unescaping (allocated regime) never lengthens a byte sequence. -/
theorem unescapeAll_length_le (s : List Nat) : (unescapeAll s).length ≤ s.length := by
  induction s using unescapeAll.induct with
  | case1 => simp [unescapeAll]
  | case2 => simp [unescapeAll]
  | case3 c2 rest2 ih =>
    rw [unescapeAll_cons_escape]
    simp only [List.length_cons]
    omega
  | case4 c rest hc ih =>
    rw [unescapeAll_cons_other c hc]
    simp only [List.length_cons]
    omega

/-- In the allocated regime, appending a dangling escape byte after a
sequence that does not end in an escape byte leaves the output
unchanged. -/
theorem unescapeAll_append_escape (t : List Nat) (h : t.getLast? ≠ some bslash) :
    unescapeAll (t ++ [bslash]) = unescapeAll t := by
  induction t using unescapeAll.induct with
  | case1 => rfl
  | case2 => simp at h
  | case3 c2 rest2 ih =>
    have hl : rest2.getLast? ≠ some bslash := by
      cases rest2 with
      | nil => simp
      | cons b l => simpa [List.getLast?_cons_cons] using h
    rw [List.cons_append, List.cons_append, unescapeAll_cons_escape, unescapeAll_cons_escape,
      ih hl]
  | case4 c rest hc ih =>
    have hl : rest.getLast? ≠ some bslash := by
      cases rest with
      | nil => simp
      | cons b l => simpa [List.getLast?_cons_cons] using h
    rw [List.cons_append, unescapeAll_cons_other c hc, unescapeAll_cons_other c hc, ih hl]

/-- Escape-pair test on a sequence starting with a non-escape byte. -/
theorem hasEscapePair_cons_other (c : Nat) (hc : c ≠ bslash) (x : List Nat) :
    hasEscapePair (c :: x) = hasEscapePair x := by
  rw [hasEscapePair.eq_def]
  simp [hc]

/-- Unescape-loop step: an unescaped escape byte writes nothing and
sets the flag. -/
theorem unescapeLoop_escape (s : List Nat) (kk : Nat) (rest : List Nat)
    (res : Option (List Nat)) :
    unescapeLoop s kk (bslash :: rest) res false = unescapeLoop s (kk + 1) rest res true := by
  rw [unescapeLoop.eq_def]
  simp [bslash]

/-- Unescape-loop step: the byte after an unescaped escape byte, with
the result still nil, allocates the result as the input up to the
escape byte and appends the byte. -/
theorem unescapeLoop_alloc_step (s : List Nat) (kk : Nat) (c : Nat) (rest : List Nat) :
    unescapeLoop s kk (c :: rest) none true =
      unescapeLoop s (kk + 1) rest (some (s.take (kk - 1) ++ [c])) false := by
  rw [unescapeLoop.eq_def]
  simp

/-- Unescape-loop step: the byte after an unescaped escape byte, with
the result allocated, is appended. -/
theorem unescapeLoop_after_slash_some (s : List Nat) (kk : Nat) (c : Nat) (rest : List Nat)
    (l : List Nat) :
    unescapeLoop s kk (c :: rest) (some l) true =
      unescapeLoop s (kk + 1) rest (some (l ++ [c])) false := by
  rw [unescapeLoop.eq_def]
  simp

/-- Unescape-loop step: an ordinary byte with the result allocated is
appended. -/
theorem unescapeLoop_other_some (s : List Nat) (kk : Nat) (c : Nat) (rest : List Nat)
    (l : List Nat) (hc : c ≠ bslash) :
    unescapeLoop s kk (c :: rest) (some l) false =
      unescapeLoop s (kk + 1) rest (some (l ++ [c])) false := by
  rw [unescapeLoop.eq_def]
  simp [hc]

/-- Unescape-loop step: an ordinary byte with the result still nil
writes nothing. -/
theorem unescapeLoop_other_none (s : List Nat) (kk : Nat) (c : Nat) (rest : List Nat)
    (hc : c ≠ bslash) :
    unescapeLoop s kk (c :: rest) none false = unescapeLoop s (kk + 1) rest none false := by
  rw [unescapeLoop.eq_def]
  simp [hc]

/-- Once the result buffer is allocated the loop appends exactly the
allocated-regime unescape of the remaining bytes. -/
theorem unescapeLoop_alloc (s : List Nat) (rem : List Nat) :
    ∀ kk l, unescapeLoop s kk rem (some l) false = some (l ++ unescapeAll rem) := by
  induction rem using unescapeAll.induct with
  | case1 =>
    intro kk l
    simp [unescapeLoop, unescapeAll]
  | case2 =>
    intro kk l
    rw [unescapeLoop_escape]
    simp [unescapeLoop, unescapeAll]
  | case3 c2 rest2 ih =>
    intro kk l
    rw [unescapeLoop_escape, unescapeLoop_after_slash_some, ih, unescapeAll_cons_escape]
    simp
  | case4 c rest hc ih =>
    intro kk l
    rw [unescapeLoop_other_some s kk c rest l hc, ih, unescapeAll_cons_other c hc]
    simp

/-- Running the loop from a nil result over the suffix `rem` of the
input (with `kk` the index where `rem` starts) stays nil when `rem` has
no escape pair, and otherwise produces the already-passed prefix
followed by the allocated-regime unescape of `rem`. -/
theorem unescapeLoop_main (rem : List Nat) :
    ∀ pre : List Nat,
      unescapeLoop (pre ++ rem) pre.length rem none false =
        if hasEscapePair rem = true then some (pre ++ unescapeAll rem) else none := by
  induction rem using hasEscapePair.induct with
  | case1 =>
    intro pre
    simp [unescapeLoop, hasEscapePair]
  | case2 =>
    intro pre
    rw [unescapeLoop_escape]
    simp [unescapeLoop, hasEscapePair]
  | case3 c2 rest2 =>
    intro pre
    rw [unescapeLoop_escape, unescapeLoop_alloc_step, unescapeLoop_alloc]
    have htake : (pre ++ bslash :: c2 :: rest2).take (pre.length + 1 - 1) = pre := by
      simp [List.take_left]
    rw [htake]
    have hpair : hasEscapePair (bslash :: c2 :: rest2) = true := rfl
    rw [hpair, if_pos rfl, unescapeAll_cons_escape]
    simp
  | case4 c rest hc ih =>
    intro pre
    rw [unescapeLoop_other_none _ _ _ _ hc]
    have e1 : pre ++ c :: rest = (pre ++ [c]) ++ rest := by simp
    have e2 : pre.length + 1 = (pre ++ [c]).length := by simp
    rw [e1, e2, ih (pre ++ [c]), hasEscapePair_cons_other c hc, unescapeAll_cons_other c hc]
    by_cases hp : hasEscapePair rest = true
    · rw [if_pos hp, if_pos hp]
      simp
    · rw [if_neg hp, if_neg hp]

/-- Unescape in closed form: the allocated-regime unescape when the
input has an escape pair, the input itself otherwise. -/
theorem Unescape_eq (s : List Nat) :
    Unescape s = if hasEscapePair s = true then unescapeAll s else s := by
  have hmain := unescapeLoop_main s []
  simp only [List.nil_append, List.length_nil] at hmain
  unfold Unescape
  rw [hmain]
  by_cases hp : hasEscapePair s = true
  · rw [if_pos hp, if_pos hp]
  · rw [if_neg hp, if_neg hp]

/-- Allocated-regime round trip: unescaping an escaped sequence
recovers the original. -/
theorem unescapeAll_escape (x : List Nat) : unescapeAll (Escape x) = x := by
  induction x with
  | nil => rfl
  | cons c rest ih =>
    by_cases hc : c = bslash ∨ c = openB ∨ c = closeB ∨ c = pipeB
    · rw [Escape, if_pos hc, unescapeAll_cons_escape, ih]
    · have hcb : c ≠ bslash := fun hb => hc (Or.inl hb)
      rw [Escape, if_neg hc, unescapeAll_cons_other c hcb, ih]

/-- An escaped sequence with no escape pair contains no special byte at
all and so equals its source. -/
theorem escape_no_pair (x : List Nat) (h : hasEscapePair (Escape x) = false) : Escape x = x := by
  induction x with
  | nil => rfl
  | cons c rest ih =>
    by_cases hc : c = bslash ∨ c = openB ∨ c = closeB ∨ c = pipeB
    · rw [Escape, if_pos hc] at h
      simp [hasEscapePair] at h
    · have hcb : c ≠ bslash := fun hb => hc (Or.inl hb)
      rw [Escape, if_neg hc] at h ⊢
      rw [hasEscapePair_cons_other c hcb] at h
      rw [ih h]

/-- C2: for every byte sequence x, Unescape (Escape x) equals x. When
the escaped form has an escape pair the allocated regime applies; when
it has none it contains no special byte, so escaping was the
identity and the loop returns the input unchanged. -/
theorem unescape_escape (x : List Nat) : Unescape (Escape x) = x := by
  rw [Unescape_eq]
  by_cases hp : hasEscapePair (Escape x) = true
  · rw [if_pos hp]
    exact unescapeAll_escape x
  · rw [if_neg hp]
    exact escape_no_pair x (by simpa using hp)

/-- Appending a dangling escape byte to a sequence not ending in an
escape byte does not change whether an escape pair exists. -/
theorem hasEscapePair_append_escape (t : List Nat) (h : t.getLast? ≠ some bslash) :
    hasEscapePair (t ++ [bslash]) = hasEscapePair t := by
  induction t with
  | nil => rfl
  | cons c rest ih =>
    by_cases hc : c = bslash
    · subst hc
      cases rest with
      | nil => simp at h
      | cons b l =>
        rw [List.cons_append]
        rfl
    · have hl : rest.getLast? ≠ some bslash := by
        cases rest with
        | nil => simp
        | cons b l => simpa [List.getLast?_cons_cons] using h
      rw [List.cons_append, hasEscapePair_cons_other c hc, hasEscapePair_cons_other c hc, ih hl]

/-- Counterexample to C4 as stated: on the input of a non-escape byte
followed by a dangling escape byte, Go's Unescape never allocates its
result buffer and returns the input unchanged — the output has the same
length and the dangling escape byte appears in it. -/
theorem unescape_trailing_escape_cex :
    Unescape [97, bslash] = [97, bslash] ∧
    ¬((Unescape [97, bslash]).length < ([97, bslash] : List Nat).length) := by
  refine ⟨rfl, ?_⟩
  decide

/-- C4 (amended): for a byte sequence ending in a dangling escape byte
(last byte an escape byte, its preceding byte not an escape byte): if
an unescaped escape byte followed by another byte occurs earlier — so
the result buffer of the Go implementation is allocated — the dangling
escape is consumed, the output equals the unescape of the input without
its final byte, and is strictly shorter than the input; otherwise the
result buffer is never allocated and the input is returned unchanged,
dangling escape included. -/
theorem unescape_trailing_escape_lazy (t : List Nat) (h : t.getLast? ≠ some bslash) :
    (hasEscapePair (t ++ [bslash]) = true →
      Unescape (t ++ [bslash]) = Unescape t ∧
      (Unescape (t ++ [bslash])).length < (t ++ [bslash]).length) ∧
    (hasEscapePair (t ++ [bslash]) = false → Unescape (t ++ [bslash]) = t ++ [bslash]) := by
  constructor
  · intro hp
    have hpt : hasEscapePair t = true := by
      rw [← hasEscapePair_append_escape t h]
      exact hp
    have e1 : Unescape (t ++ [bslash]) = unescapeAll t := by
      rw [Unescape_eq, if_pos hp, unescapeAll_append_escape t h]
    have e2 : Unescape t = unescapeAll t := by
      rw [Unescape_eq, if_pos hpt]
    refine ⟨e1.trans e2.symm, ?_⟩
    rw [e1]
    have hle := unescapeAll_length_le t
    simp only [List.length_append, List.length_cons, List.length_nil]
    omega
  · intro hp
    rw [Unescape_eq, if_neg (by simp [hp])]

/-- Witness for the amended C4: with an earlier escape pair (input
escape, a, escape) the dangling escape is dropped and the output
shorter; without one (input a, escape) the input comes back
unchanged. -/
theorem unescape_trailing_escape_lazy_wit :
    (Unescape ([bslash, 97] ++ [bslash]) = Unescape [bslash, 97] ∧
      (Unescape ([bslash, 97] ++ [bslash])).length < ([bslash, 97] ++ [bslash]).length) ∧
    Unescape ([97] ++ [bslash]) = [97] ++ [bslash] :=
  ⟨(unescape_trailing_escape_lazy [bslash, 97] (by decide)).1 rfl,
   (unescape_trailing_escape_lazy [97] (by decide)).2 rfl⟩

/-- C5: absent and empty argument lists are distinct: `(name)` invokes
the resolved handler with the nil args marker while `(name|)` invokes it
with the empty (but present) byte sequence; EvalArgs on nil args returns
the nil value list with no error while on the empty byte sequence it
returns exactly one value, the atomic empty sequence Raw []. The byte
lists spell `(name)` and `(name|)`. -/
theorem eval_absent_vs_empty (r : Resolver) :
    Eval r [40, 110, 97, 109, 101, 41] = r [110, 97, 109, 101] none ∧
    Eval r [40, 110, 97, 109, 101, 124, 41] = r [110, 97, 109, 101] (some []) ∧
    EvalArgs r none = Except.ok [] ∧
    EvalArgs r (some []) = Except.ok [Raw []] :=
  ⟨rfl, rfl, rfl, rfl⟩

/-- C8: every input that is empty or does not start with the open
bracket evaluates to itself wrapped as Raw, with no error, for every
resolver (the resolver is never consulted). -/
theorem eval_atomic_passthrough (r : Resolver) (x : List Nat)
    (h : x = [] ∨ x.head? ≠ some openB) :
    Eval r x = Except.ok (Raw x) := by
  have hg : x.length = 0 ∨ x.head? ≠ some openB := by
    rcases h with h | h
    · exact Or.inl (by simp [h])
    · exact Or.inr h
  rw [Eval, if_pos hg]

/-- Witness for C8 at the concrete input [97] (the byte for the letter
a, which is not an open bracket). -/
theorem eval_atomic_passthrough_wit : Eval rConst [97] = Except.ok (Raw [97]) :=
  eval_atomic_passthrough rConst [97] (by decide)

/-- C9: every nonempty input starting with the open bracket and not
ending with the close bracket fails with the missing close bracket
error, for every resolver (no resolver or handler is invoked). -/
theorem eval_missing_close (r : Resolver) (s : List Nat)
    (h1 : s.head? = some openB) (h2 : s.getLast? ≠ some closeB) :
    Eval r s = Except.error (Error.mk "nice: missing )") := by
  have hg : ¬(s.length = 0 ∨ s.head? ≠ some openB) := by
    rintro (h | h)
    · cases s with
      | nil => simp at h1
      | cons a l => simp at h
    · exact h h1
  rw [Eval, if_neg hg, if_pos h2]

/-- Witness for C9 at the concrete input [40, 120] (the bytes of the
string consisting of an open bracket and the letter x). -/
theorem eval_missing_close_wit :
    Eval rConst [40, 120] = Except.error (Error.mk "nice: missing )") :=
  eval_missing_close rConst [40, 120] (by decide) (by decide)

/-- Running the scan of `Eval` equals classifying the interior with
`scanInterior` and then acting on the outcome. -/
theorem evalScan_eq_denote (r : Resolver) (acc rem : List Nat) (nesting : Int) :
    evalScan r acc rem nesting = scanDenote r (scanInterior acc rem nesting) := by
  induction acc, rem, nesting using scanInterior.induct with
  | case1 a n => rfl
  | case2 a n => rfl
  | case3 a n c2 rest2 ih => exact ih
  | case4 a n c2 rest2 h1 h2 =>
    obtain ⟨hc, hn⟩ := h2
    subst hc
    subst hn
    rw [evalScan.eq_def, scanInterior.eq_def]
    simp [pipeB, bslash, scanDenote]
  | case5 a n rest2 h1 h2 ih =>
    simp only [openB, bslash, closeB, pipeB] at ih ⊢
    rw [evalScan.eq_def, scanInterior.eq_def]
    simp
    exact ih
  | case6 a n rest2 h1 h2 h3 h4 =>
    have hn : n = 1 := by omega
    subst hn
    rw [evalScan.eq_def, scanInterior.eq_def]
    simp [closeB, bslash, pipeB, openB, scanDenote]
  | case7 a n rest2 h1 h2 h3 h4 ih =>
    simp only [openB, bslash, closeB, pipeB] at ih h1 ⊢
    rw [evalScan.eq_def, scanInterior.eq_def]
    simp [h1]
    exact ih
  | case8 a n c2 rest2 h1 h2 h3 h4 ih =>
    rw [evalScan.eq_def, scanInterior.eq_def]
    simp only [openB, bslash, closeB, pipeB] at ih h1 h2 h3 h4 ⊢
    simp [h1, h2, h3, h4]
    exact ih

/-- Evaluating a bracketed input runs the interior scan starting at
nesting 1 with nothing consumed yet. -/
theorem Eval_call (r : Resolver) (interior : List Nat) :
    Eval r (openB :: interior ++ [closeB]) = evalScan r [] interior 1 := by
  have hg : ¬((openB :: interior ++ [closeB]).length = 0 ∨
      (openB :: interior ++ [closeB]).head? ≠ some openB) := by
    simp
  have hl : (openB :: interior ++ [closeB]).getLast? = some closeB := by
    rw [show openB :: interior ++ [closeB] = (openB :: interior) ++ [closeB] from rfl]
    exact List.getLast?_concat _
  rw [Eval, if_neg hg, if_neg (by simp only [ne_eq, not_not]; exact hl)]
  congr 1
  simp [List.dropLast_concat]

/-- Scan step: the interior is exhausted. -/
theorem scanInterior_nil (acc : List Nat) (n : Int) :
    scanInterior acc [] n = ScanResult.done n acc := rfl

/-- Scan step: a trailing escape byte skips past the end of the scan. -/
theorem scanInterior_escape_end (acc : List Nat) (n : Int) :
    scanInterior acc [bslash] n = ScanResult.done n (acc ++ [bslash]) := rfl

/-- Scan step: an escape byte consumes the following byte. -/
theorem scanInterior_escape2 (acc : List Nat) (c2 : Nat) (rest2 : List Nat) (n : Int) :
    scanInterior acc (bslash :: c2 :: rest2) n = scanInterior (acc ++ [bslash, c2]) rest2 n := rfl

/-- Scan step: a pipe at nesting 1 splits name from args. -/
theorem scanInterior_pipe (acc rest : List Nat) :
    scanInterior acc (pipeB :: rest) 1 = ScanResult.pipeAt acc rest := by
  rw [scanInterior.eq_def]
  simp [pipeB, bslash]

/-- Scan step: a pipe at nesting other than 1 is an ordinary byte. -/
theorem scanInterior_pipe_ne (acc rest : List Nat) (n : Int) (hn : n ≠ 1) :
    scanInterior acc (pipeB :: rest) n = scanInterior (acc ++ [pipeB]) rest n := by
  rw [scanInterior.eq_def]
  simp [pipeB, bslash, openB, closeB, hn]

/-- Scan step: an open bracket increments nesting. -/
theorem scanInterior_open (acc rest : List Nat) (n : Int) :
    scanInterior acc (openB :: rest) n = scanInterior (acc ++ [openB]) rest (n + 1) := by
  rw [scanInterior.eq_def]
  simp [pipeB, bslash, openB, closeB]

/-- Scan step: a close bracket at nesting 1 closes early. -/
theorem scanInterior_close_zero (acc rest : List Nat) (n : Int) (h : n - 1 = 0) :
    scanInterior acc (closeB :: rest) n = ScanResult.closedEarly := by
  rw [scanInterior.eq_def]
  simp [pipeB, bslash, openB, closeB, h]

/-- Scan step: a close bracket at other nesting decrements nesting. -/
theorem scanInterior_close (acc rest : List Nat) (n : Int) (h : n - 1 ≠ 0) :
    scanInterior acc (closeB :: rest) n = scanInterior (acc ++ [closeB]) rest (n - 1) := by
  rw [scanInterior.eq_def]
  simp [pipeB, bslash, openB, closeB, h]

/-- Scan step: any other byte is consumed without effect on nesting. -/
theorem scanInterior_other (acc : List Nat) (c : Nat) (rest : List Nat) (n : Int)
    (h1 : c ≠ bslash) (h2 : ¬(c = pipeB ∧ n = 1)) (h3 : c ≠ openB) (h4 : c ≠ closeB) :
    scanInterior acc (c :: rest) n = scanInterior (acc ++ [c]) rest n := by
  rw [scanInterior.eq_def]
  simp [h1, h2, h3, h4]

/-- Appending a dangling escape byte to an interior whose scan
completes extends the scanned name by that byte without changing the
final nesting (the appended byte is either scanned as a fresh trailing
escape or consumed by a preceding dangling escape). -/
theorem scanInterior_append_escape (acc body : List Nat) (n : Int) :
    ∀ m nm, scanInterior acc body n = ScanResult.done m nm →
      scanInterior acc (body ++ [bslash]) n = ScanResult.done m (nm ++ [bslash]) := by
  induction acc, body, n using scanInterior.induct with
  | case1 a n =>
    intro m nm h
    rw [scanInterior_nil] at h
    cases h
    exact scanInterior_escape_end a n
  | case2 a n =>
    intro m nm h
    rw [scanInterior_escape_end] at h
    cases h
    show scanInterior a [bslash, bslash] n = _
    rw [scanInterior_escape2, scanInterior_nil]
    simp
  | case3 a n c2 rest2 ih =>
    intro m nm h
    rw [scanInterior_escape2] at h
    show scanInterior a (bslash :: c2 :: (rest2 ++ [bslash])) n = _
    rw [scanInterior_escape2]
    exact ih m nm h
  | case4 a n c2 rest2 h1 h2 =>
    obtain ⟨hc, hn⟩ := h2
    subst hc
    subst hn
    intro m nm h
    rw [scanInterior_pipe] at h
    simp at h
  | case5 a n rest2 h1 h2 ih =>
    intro m nm h
    rw [scanInterior_open] at h
    rw [List.cons_append, scanInterior_open]
    exact ih m nm h
  | case6 a n rest2 h1 h2 h3 h4 =>
    intro m nm h
    rw [scanInterior_close_zero _ _ _ h1] at h
    simp at h
  | case7 a n rest2 h1 h2 h3 h4 ih =>
    intro m nm h
    rw [scanInterior_close _ _ _ h1] at h
    rw [List.cons_append, scanInterior_close _ _ _ h1]
    exact ih m nm h
  | case8 a n c2 rest2 h1 h2 h3 h4 ih =>
    intro m nm h
    rw [scanInterior_other _ _ _ _ h1 h2 h3 h4] at h
    rw [List.cons_append, scanInterior_other _ _ _ _ h1 h2 h3 h4]
    exact ih m nm h

/-- C1: when the interior scan reaches the pipe separating name from
rest at nesting 1 (skipping the byte after every escape byte, counting
unescaped brackets, never reaching nesting 0), Eval resolves the name
and returns the resolved handler applied to exactly the raw bytes after
the pipe and before the final close bracket, unevaluated — for every
rest, however malformed, since the result is the handler's alone. -/
theorem eval_first_pipe_lazy (r : Resolver) (name rest : List Nat)
    (h : scanInterior [] (name ++ pipeB :: rest) 1 = ScanResult.pipeAt name rest) :
    Eval r (openB :: name ++ pipeB :: rest ++ [closeB]) = r name (some rest) := by
  have e : openB :: name ++ pipeB :: rest ++ [closeB] =
      openB :: (name ++ pipeB :: rest) ++ [closeB] := by simp
  rw [e, Eval_call, evalScan_eq_denote, h]
  rfl

/-- Witness for C1 at the concrete input `(n|x)`: name [110], rest
[120]. -/
theorem eval_first_pipe_lazy_wit :
    Eval rConst (openB :: [110] ++ pipeB :: [120] ++ [closeB]) = rConst [110] (some [120]) :=
  eval_first_pipe_lazy rConst [110] [120] rfl

/-- C6: if an unescaped close bracket in the interior drives the
nesting counter (started at 1) to 0 before any top-level pipe is found,
Eval fails with the mismatched close bracket error, as on input `(x))`;
if the scan completes without a top-level pipe and nesting is not 1,
Eval fails with the mismatched open bracket error. -/
theorem eval_mismatch_classification (r : Resolver) (interior : List Nat) :
    (scanInterior [] interior 1 = ScanResult.closedEarly →
      Eval r (openB :: interior ++ [closeB]) = Except.error (Error.mk "nice: mismatched )")) ∧
    (∀ k nm, scanInterior [] interior 1 = ScanResult.done k nm → k ≠ 1 →
      Eval r (openB :: interior ++ [closeB]) = Except.error (Error.mk "nice: mismatched (")) ∧
    Eval r [40, 120, 41, 41] = Except.error (Error.mk "nice: mismatched )") := by
  refine ⟨?_, ?_, rfl⟩
  · intro h
    rw [Eval_call, evalScan_eq_denote, h]
    rfl
  · intro k nm h hk
    rw [Eval_call, evalScan_eq_denote, h]
    simp [scanDenote, hk]

/-- Witness for C6: the close-early branch at interior `x)` (input
`(x))`) and the leftover-nesting branch at interior `(x` (input
`((x)`). -/
theorem eval_mismatch_classification_wit :
    Eval rConst (openB :: [120, 41] ++ [closeB]) = Except.error (Error.mk "nice: mismatched )") ∧
    Eval rConst (openB :: [40, 120] ++ [closeB]) = Except.error (Error.mk "nice: mismatched (") :=
  ⟨(eval_mismatch_classification rConst [120, 41]).1 rfl,
   (eval_mismatch_classification rConst [40, 120]).2.1 2 [40, 120] rfl (by decide)⟩

/-- C10: an escape byte immediately before the final close bracket does
not protect that bracket: when the scan of the body finds no top-level
pipe and leaves nesting at 1, Eval still treats the final close bracket
as the call's closing bracket and invokes the resolved handler with the
body plus the trailing escape byte as the name and nil args; in
particular the input consisting of an escape byte between brackets
resolves the single escape byte rather than reporting a bracket
error. -/
theorem eval_escape_before_final_close (r : Resolver) (body : List Nat)
    (h : scanInterior [] body 1 = ScanResult.done 1 body) :
    Eval r (openB :: body ++ [bslash, closeB]) = r (body ++ [bslash]) none ∧
    Eval r [40, 92, 41] = r [92] none := by
  refine ⟨?_, rfl⟩
  have e : openB :: body ++ [bslash, closeB] = openB :: (body ++ [bslash]) ++ [closeB] := by simp
  rw [e, Eval_call, evalScan_eq_denote, scanInterior_append_escape [] body 1 1 body h]
  rfl

/-- Witness for C10 at body [120] (input `(x\)`), whose handler gets
name [120, 92] and nil args. -/
theorem eval_escape_before_final_close_wit :
    Eval rConst (openB :: [120] ++ [bslash, closeB]) = rConst [120, 92] none :=
  (eval_escape_before_final_close rConst [120] rfl).1

/-- Bind in the Except monad yields ok exactly when both stages do. -/
theorem except_bind_ok {e α β : Type} {x : Except e α} {g : α → Except e β} {b : β} :
    (x >>= g) = Except.ok b ↔ ∃ a, x = Except.ok a ∧ g a = Except.ok b := by
  cases x with
  | error er => simp [Bind.bind, Except.bind]
  | ok a => simp [Bind.bind, Except.bind]

/-- Mapping a fallible function over a list preserves length on
success. -/
theorem mapM_ok_length {e α β : Type} (f : α → Except e β) (l : List α) :
    ∀ ws, List.mapM f l = Except.ok ws → ws.length = l.length := by
  induction l with
  | nil =>
    intro ws h
    rw [List.mapM_nil] at h
    simp only [pure, Except.pure, Except.ok.injEq] at h
    subst h
    rfl
  | cons a t ih =>
    intro ws h
    rw [List.mapM_cons] at h
    rcases except_bind_ok.mp h with ⟨b, hb, h2⟩
    rcases except_bind_ok.mp h2 with ⟨bs, hbs, h3⟩
    simp only [pure, Except.pure, Except.ok.injEq] at h3
    subst h3
    simp [ih bs hbs]

/-- Args-scan step: the range is exhausted. -/
theorem evalArgsScan_nil (r : Resolver) (acc : List Nat) (n : Int) (result : List Value) :
    evalArgsScan r acc [] n result = evalArgsScanEnd r acc n result := rfl

/-- Args-scan step: a trailing escape byte skips past the end. -/
theorem evalArgsScan_escape_end (r : Resolver) (acc : List Nat) (n : Int) (result : List Value) :
    evalArgsScan r acc [bslash] n result = evalArgsScanEnd r (acc ++ [bslash]) n result := rfl

/-- Args-scan step: an escape byte consumes the following byte. -/
theorem evalArgsScan_escape2 (r : Resolver) (acc : List Nat) (c2 : Nat) (rest2 : List Nat)
    (n : Int) (result : List Value) :
    evalArgsScan r acc (bslash :: c2 :: rest2) n result =
      evalArgsScan r (acc ++ [bslash, c2]) rest2 n result := rfl

/-- Args-scan step: a pipe at nesting 0 evaluates the current segment
and starts a new one. -/
theorem evalArgsScan_pipe (r : Resolver) (acc rest : List Nat) (result : List Value) :
    evalArgsScan r acc (pipeB :: rest) 0 result =
      match Eval r acc with
      | Except.error e => Except.error e
      | Except.ok v => evalArgsScan r [] rest 0 (result ++ [v]) := by
  rw [evalArgsScan.eq_def]
  simp [pipeB, bslash]

/-- Args-scan step: a pipe at nonzero nesting is an ordinary byte. -/
theorem evalArgsScan_pipe_ne (r : Resolver) (acc rest : List Nat) (n : Int) (hn : n ≠ 0)
    (result : List Value) :
    evalArgsScan r acc (pipeB :: rest) n result =
      evalArgsScan r (acc ++ [pipeB]) rest n result := by
  rw [evalArgsScan.eq_def]
  simp [pipeB, bslash, openB, closeB, hn]

/-- Args-scan step: an open bracket increments nesting. -/
theorem evalArgsScan_open (r : Resolver) (acc rest : List Nat) (n : Int) (result : List Value) :
    evalArgsScan r acc (openB :: rest) n result =
      evalArgsScan r (acc ++ [openB]) rest (n + 1) result := by
  rw [evalArgsScan.eq_def]
  simp [pipeB, bslash, openB, closeB]

/-- Args-scan step: a close bracket that would drive nesting below 0 is
a mismatched close bracket. -/
theorem evalArgsScan_close_neg (r : Resolver) (acc rest : List Nat) (n : Int) (h : n - 1 < 0)
    (result : List Value) :
    evalArgsScan r acc (closeB :: rest) n result =
      Except.error (Error.mk "nice: mismatched )") := by
  rw [evalArgsScan.eq_def]
  simp [pipeB, bslash, openB, closeB, h]

/-- Args-scan step: a close bracket at other nesting decrements it. -/
theorem evalArgsScan_close (r : Resolver) (acc rest : List Nat) (n : Int) (h : ¬(n - 1 < 0))
    (result : List Value) :
    evalArgsScan r acc (closeB :: rest) n result =
      evalArgsScan r (acc ++ [closeB]) rest (n - 1) result := by
  rw [evalArgsScan.eq_def]
  simp [pipeB, bslash, openB, closeB, h]

/-- Args-scan step: any other byte is consumed without effect. -/
theorem evalArgsScan_other (r : Resolver) (acc : List Nat) (c : Nat) (rest : List Nat)
    (n : Int) (result : List Value)
    (h1 : c ≠ bslash) (h2 : ¬(c = pipeB ∧ n = 0)) (h3 : c ≠ openB) (h4 : c ≠ closeB) :
    evalArgsScan r acc (c :: rest) n result = evalArgsScan r (acc ++ [c]) rest n result := by
  rw [evalArgsScan.eq_def]
  simp [h1, h2, h3, h4]

/-- Segment step: the range is exhausted. -/
theorem topSegs_nil (acc : List Nat) (n : Int) : topSegs acc [] n = [acc] := rfl

/-- Segment step: a trailing escape joins the final segment. -/
theorem topSegs_escape_end (acc : List Nat) (n : Int) :
    topSegs acc [bslash] n = [acc ++ [bslash]] := rfl

/-- Segment step: an escape byte consumes the following byte. -/
theorem topSegs_escape2 (acc : List Nat) (c2 : Nat) (rest2 : List Nat) (n : Int) :
    topSegs acc (bslash :: c2 :: rest2) n = topSegs (acc ++ [bslash, c2]) rest2 n := rfl

/-- Segment step: a pipe at nesting 0 ends the current segment. -/
theorem topSegs_pipe (acc rest : List Nat) :
    topSegs acc (pipeB :: rest) 0 = acc :: topSegs [] rest 0 := by
  rw [topSegs.eq_def]
  simp [pipeB, bslash]

/-- Segment step: a pipe at nonzero nesting is an ordinary byte. -/
theorem topSegs_pipe_ne (acc rest : List Nat) (n : Int) (hn : n ≠ 0) :
    topSegs acc (pipeB :: rest) n = topSegs (acc ++ [pipeB]) rest n := by
  rw [topSegs.eq_def]
  simp [pipeB, bslash, openB, closeB, hn]

/-- Segment step: an open bracket increments nesting. -/
theorem topSegs_open (acc rest : List Nat) (n : Int) :
    topSegs acc (openB :: rest) n = topSegs (acc ++ [openB]) rest (n + 1) := by
  rw [topSegs.eq_def]
  simp [pipeB, bslash, openB, closeB]

/-- Segment step: a close bracket decrements nesting. -/
theorem topSegs_close (acc rest : List Nat) (n : Int) :
    topSegs acc (closeB :: rest) n = topSegs (acc ++ [closeB]) rest (n - 1) := by
  rw [topSegs.eq_def]
  simp [pipeB, bslash, openB, closeB]

/-- Segment step: any other byte is consumed without effect. -/
theorem topSegs_other (acc : List Nat) (c : Nat) (rest : List Nat) (n : Int)
    (h1 : c ≠ bslash) (h2 : ¬(c = pipeB ∧ n = 0)) (h3 : c ≠ openB) (h4 : c ≠ closeB) :
    topSegs acc (c :: rest) n = topSegs (acc ++ [c]) rest n := by
  rw [topSegs.eq_def]
  simp [h1, h2, h3, h4]

/-- Pipe-count step lemmas, mirrored from the scan. -/
theorem countTopPipes_nil (n : Int) : countTopPipes [] n = 0 := rfl

/-- Pipe-count step: a trailing escape contributes nothing. -/
theorem countTopPipes_escape_end (n : Int) : countTopPipes [bslash] n = 0 := rfl

/-- Pipe-count step: an escape byte consumes the following byte. -/
theorem countTopPipes_escape2 (c2 : Nat) (rest2 : List Nat) (n : Int) :
    countTopPipes (bslash :: c2 :: rest2) n = countTopPipes rest2 n := rfl

/-- Pipe-count step: a pipe at nesting 0 counts. -/
theorem countTopPipes_pipe (rest : List Nat) :
    countTopPipes (pipeB :: rest) 0 = countTopPipes rest 0 + 1 := by
  rw [countTopPipes.eq_def]
  simp [pipeB, bslash]

/-- Pipe-count step: a pipe at nonzero nesting does not count. -/
theorem countTopPipes_pipe_ne (rest : List Nat) (n : Int) (hn : n ≠ 0) :
    countTopPipes (pipeB :: rest) n = countTopPipes rest n := by
  rw [countTopPipes.eq_def]
  simp [pipeB, bslash, openB, closeB, hn]

/-- Pipe-count step: an open bracket increments nesting. -/
theorem countTopPipes_open (rest : List Nat) (n : Int) :
    countTopPipes (openB :: rest) n = countTopPipes rest (n + 1) := by
  rw [countTopPipes.eq_def]
  simp [pipeB, bslash, openB, closeB]

/-- Pipe-count step: a close bracket decrements nesting. -/
theorem countTopPipes_close (rest : List Nat) (n : Int) :
    countTopPipes (closeB :: rest) n = countTopPipes rest (n - 1) := by
  rw [countTopPipes.eq_def]
  simp [pipeB, bslash, openB, closeB]

/-- Pipe-count step: any other byte does not count. -/
theorem countTopPipes_other (c : Nat) (rest : List Nat) (n : Int)
    (h1 : c ≠ bslash) (h2 : ¬(c = pipeB ∧ n = 0)) (h3 : c ≠ openB) (h4 : c ≠ closeB) :
    countTopPipes (c :: rest) n = countTopPipes rest n := by
  rw [countTopPipes.eq_def]
  simp [h1, h2, h3, h4]

/-- The scan always produces one more segment than it counts top-level
pipes. -/
theorem topSegs_length (acc rem : List Nat) (n : Int) :
    (topSegs acc rem n).length = countTopPipes rem n + 1 := by
  induction acc, rem, n using topSegs.induct with
  | case1 a n => rfl
  | case2 a n => rfl
  | case3 a n c2 rest2 ih =>
    rw [topSegs_escape2, countTopPipes_escape2]
    exact ih
  | case4 a n c2 rest2 h1 h2 ih =>
    obtain ⟨hc, hn⟩ := h2
    subst hc
    subst hn
    rw [topSegs_pipe, countTopPipes_pipe]
    simp only [List.length_cons, ih]
  | case5 a n rest2 h1 h2 ih =>
    rw [topSegs_open, countTopPipes_open]
    exact ih
  | case6 a n rest2 h1 h2 h3 ih =>
    rw [topSegs_close, countTopPipes_close]
    exact ih
  | case7 a n c2 rest2 h1 h2 h3 h4 ih =>
    rw [topSegs_other _ _ _ _ h1 h2 h3 h4, countTopPipes_other _ _ _ h1 h2 h3 h4]
    exact ih

/-- Success of the end of the args scan yields exactly the value of the
final segment appended to the results so far. -/
theorem evalArgsScanEnd_ok (r : Resolver) (a : List Nat) (n : Int) (res : List Value) :
    ∀ vs, evalArgsScanEnd r a n res = Except.ok vs →
      ∃ ws, List.mapM (Eval r) [a] = Except.ok ws ∧ vs = res ++ ws := by
  intro vs h
  unfold evalArgsScanEnd at h
  by_cases hn : n = 0
  · rw [if_neg (by simp [hn])] at h
    cases hEval : Eval r a with
    | error e => rw [hEval] at h; simp at h
    | ok v =>
      rw [hEval] at h
      simp only [Except.ok.injEq] at h
      refine ⟨[v], ?_, h.symm⟩
      rw [List.mapM_cons, List.mapM_nil, hEval]
      rfl
  · rw [if_pos hn] at h
    simp at h

/-- Success of the args scan yields exactly the values of the remaining
top-level segments, in order, appended to the results so far. -/
theorem evalArgsScan_ok (r : Resolver) (acc rem : List Nat) (nesting : Int) (result : List Value) :
    ∀ vs, evalArgsScan r acc rem nesting result = Except.ok vs →
      ∃ ws, List.mapM (Eval r) (topSegs acc rem nesting) = Except.ok ws ∧ vs = result ++ ws := by
  induction acc, rem, nesting, result using evalArgsScan.induct r with
  | case1 a n res =>
    intro vs h
    rw [evalArgsScan_nil] at h
    rw [topSegs_nil]
    exact evalArgsScanEnd_ok r a n res vs h
  | case2 a n res =>
    intro vs h
    rw [evalArgsScan_escape_end] at h
    rw [topSegs_escape_end]
    exact evalArgsScanEnd_ok r (a ++ [bslash]) n res vs h
  | case3 a n res c2 rest2 ih =>
    intro vs h
    rw [evalArgsScan_escape2] at h
    rw [topSegs_escape2]
    exact ih vs h
  | case4 a n res c2 rest2 h1 h2 e hEval =>
    obtain ⟨hc, hn⟩ := h2
    subst hc
    subst hn
    intro vs h
    rw [evalArgsScan_pipe, hEval] at h
    simp at h
  | case5 a n res c2 rest2 h1 h2 v hEval ih =>
    obtain ⟨hc, hn⟩ := h2
    subst hc
    subst hn
    intro vs h
    rw [evalArgsScan_pipe, hEval] at h
    rcases ih vs h with ⟨ws, hws, hvs⟩
    rw [topSegs_pipe]
    refine ⟨v :: ws, ?_, ?_⟩
    · rw [List.mapM_cons, hEval, hws]
      rfl
    · rw [hvs]
      simp
  | case6 a n res rest2 h1 h2 ih =>
    intro vs h
    rw [evalArgsScan_open] at h
    rw [topSegs_open]
    exact ih vs h
  | case7 a n res rest2 h1 h2 h3 h4 =>
    intro vs h
    rw [evalArgsScan_close_neg r a rest2 n h1 res] at h
    simp at h
  | case8 a n res rest2 h1 h2 h3 h4 ih =>
    intro vs h
    rw [evalArgsScan_close r a rest2 n h1 res] at h
    rw [topSegs_close]
    exact ih vs h
  | case9 a n res c2 rest2 h1 h2 h3 h4 ih =>
    intro vs h
    rw [evalArgsScan_other r a c2 rest2 n res h1 h2 h3 h4] at h
    rw [topSegs_other a c2 rest2 n h1 h2 h3 h4]
    exact ih vs h

/-- C3: when EvalArgs succeeds on a present (non-nil) byte range with k
top-level pipes it returns exactly k + 1 values, the results of
evaluating the k + 1 pipe-delimited segments left to right in order;
on the nil (absent) marker it returns the empty value sequence with no
error. -/
theorem evalArgs_count_law (r : Resolver) (s : Option (List Nat)) (vs : List Value)
    (h : EvalArgs r s = Except.ok vs) :
    (s = none → vs = []) ∧
    (∀ bs, s = some bs → vs.length = countTopPipes bs 0 + 1 ∧
      List.mapM (Eval r) (topSegs [] bs 0) = Except.ok vs) := by
  constructor
  · intro hs
    subst hs
    have h2 : Except.ok ([] : List Value) = Except.ok vs := h
    simpa using h2.symm
  · intro bs hs
    subst hs
    have h2 : evalArgsScan r [] bs 0 [] = Except.ok vs := h
    rcases evalArgsScan_ok r [] bs 0 [] vs h2 with ⟨ws, hws, hvs⟩
    simp only [List.nil_append] at hvs
    subst hvs
    have hlen := mapM_ok_length (Eval r) (topSegs [] bs 0) vs hws
    rw [topSegs_length] at hlen
    exact ⟨hlen, hws⟩

/-- Witness for C3 at the concrete input `a|b` (one top-level pipe, two
segments) under the constant resolver. -/
theorem evalArgs_count_law_wit :
    ([Value.raw [97], Value.raw [98]] : List Value).length = countTopPipes [97, 124, 98] 0 + 1 ∧
    List.mapM (Eval rConst) (topSegs [] [97, 124, 98] 0) =
      Except.ok [Value.raw [97], Value.raw [98]] :=
  (evalArgs_count_law rConst (some [97, 124, 98]) [Value.raw [97], Value.raw [98]] rfl).2
    [97, 124, 98] rfl

/-- C7 (amended): Recurse delegates a nonempty name not starting with
the open bracket directly to the wrapped resolver; an empty name or one
starting with the open bracket is evaluated as an expression: an
evaluation error yields an error handler carrying that error, a handler
value is returned as the handler, and any other value yields an error
handler carrying the not-a-function error. -/
theorem recurse_spec (r : Resolver) (name : List Nat) :
    (name.length > 0 → name.head? ≠ some openB → Resolver.Recurse r name = r name) ∧
    (name.length = 0 ∨ name.head? = some openB →
      (∀ e, Eval r name = Except.error e → Resolver.Recurse r name = ErrorHandler e) ∧
      (∀ h, Eval r name = Except.ok (Value.handlerV h) → Resolver.Recurse r name = h) ∧
      (∀ v, Eval r name = Except.ok v → (∀ h, v ≠ Value.handlerV h) →
        Resolver.Recurse r name = ErrorHandler (Error.mk "nice: not a function"))) := by
  constructor
  · intro h1 h2
    rw [Resolver.Recurse, if_pos ⟨h1, h2⟩]
  · intro hcond
    have hneg : ¬(name.length > 0 ∧ name.head? ≠ some openB) := by
      rcases hcond with h | h
      · rintro ⟨hl, _⟩
        omega
      · rintro ⟨_, hh⟩
        exact hh h
    refine ⟨?_, ?_, ?_⟩
    · intro e he
      rw [Resolver.Recurse, if_neg hneg, he]
    · intro hh hok
      rw [Resolver.Recurse, if_neg hneg, hok]
    · intro v hok hnh
      rw [Resolver.Recurse, if_neg hneg, hok]
      cases v with
      | raw l => rfl
      | handlerV f => exact absurd rfl (hnh f)
      | other k => rfl

/-- Witness for the amended C7: a nonempty non-bracket name is
delegated; the empty name falls through to evaluation and yields the
not-a-function error handler. -/
theorem recurse_spec_wit :
    Resolver.Recurse rConst [97] = rConst [97] ∧
    Resolver.Recurse rConst [] = ErrorHandler (Error.mk "nice: not a function") :=
  ⟨(recurse_spec rConst [97]).1 (by decide) (by decide),
   ((recurse_spec rConst []).2 (Or.inl rfl)).2.2 (Raw []) rfl (fun h heq => Value.noConfusion heq)⟩

/-- Counterexample to C7 as stated: the empty name does not start with
an open bracket, yet Recurse does not delegate it to the underlying
resolver — under the resolver mapping every name to a handler returning
the name, Recurse on the empty name produces the not-a-function error
handler instead of that handler. -/
theorem recurse_empty_name_cex :
    Resolver.Recurse rId [] none = Except.error (Error.mk "nice: not a function") ∧
    rId [] none = Except.ok (Value.raw []) ∧
    Resolver.Recurse rId [] ≠ rId [] := by
  refine ⟨rfl, rfl, ?_⟩
  intro hfun
  have h2 : Except.error (Error.mk "nice: not a function") = Except.ok (Value.raw ([] : List Nat)) :=
    congrFun hfun none
  exact Except.noConfusion h2

end Nice
